import Mathlib

/-!
Verification development for the pyo control-plane object model
(`pyolib/_core.py`): shallow embedding of the broadcasting arithmetic
engine on signal bundles, the `Dummy` composite constructor, the
`set`/`VarPort` parameter-ramp scheduler, the `Mix` voice distribution,
the comparison dispatch, the in-place `mul`/`add` replacement operators,
and the `pyoArgsAssert` argument validator, together with theorems
checking the specified properties.

Scalars are modelled as rationals (`Rat`).  A base audio stream object
(the opaque C-level stream held in `_base_objs`) is modelled as a syntax
tree `AStream`: `leaf` is an externally supplied stream, `sigS` is the
stream of a `Sig` object (identified by the allocation id of the `Sig`
that owns it), `num` is a bare Python number appearing as an operand of
a C-level stream operator, and `addS`/`subS`/`mulS`/`divS` are the
streams produced by the C-level arithmetic operators on streams.
-/

inductive AStream where
  | leaf (id : Nat)
  | sigS (objId : Nat) (value : Rat)
  | num (value : Rat)
  | addS (a b : AStream)
  | subS (a b : AStream)
  | mulS (a b : AStream)
  | divS (a b : AStream)
deriving DecidableEq

/-- Pointwise denotation of a stream at one sample instant: an
environment assigns a sample value to every external leaf stream. -/
def evalS (env : Nat → Rat) : AStream → Rat
  | .leaf id => env id
  | .sigS _ v => v
  | .num v => v
  | .addS a b => evalS env a + evalS env b
  | .subS a b => evalS env a - evalS env b
  | .mulS a b => evalS env a * evalS env b
  | .divS a b => evalS env a / evalS env b

/-- A `PyoObject` bundle as seen by the broadcasting arithmetic engine:
its ordered `_base_objs` stream list, its `_op_duplicate` factor and its
memoized `_zeros` slot.  `_zeros` is either `None` or the `Sig(0)`
instance allocated at the object's first negation, so it is recorded
here by the allocation id of that `Sig(0)` object. -/
structure Pyo where
  baseObjs : List AStream
  opDup : Nat
  zerosId : Option Nat
deriving DecidableEq

/-- The bundle built by `Sig(0)`: one `Sig_base` stream holding value 0
(`Sig.__init__` with scalar value 0 yields `lmax = 1`, one stream). -/
def sigZero (objId : Nat) : Pyo :=
  { baseObjs := [.sigS objId 0], opDup := 1, zerosId := none }

/-- One element of a Python operand list handed to an operator: a
number or a whole bundle. -/
inductive OpElem where
  | scalar (q : Rat)
  | pyo (p : Pyo)
deriving DecidableEq

/-- An operand `x` of a binary bundle operator: a bare scalar, a bundle,
or a list of scalars/bundles. -/
inductive Operand where
  | scalar (q : Rat)
  | pyo (p : Pyo)
  | list (l : List OpElem)
deriving DecidableEq

/-- `convertArgsToLists` (single-argument form): a `PyoObjectBase` or a
`list` is kept as is, anything else is boxed into a one-element list;
the second component is the resulting length (`max_length` over the one
argument). -/
def convertArg (x : Operand) : Operand × Nat :=
  match x with
  | .scalar q => (.list [.scalar q], 1)
  | .pyo p => (.pyo p, p.baseObjs.length)
  | .list l => (.list l, l.length)

/-- Normalized form of an operand, first component of `convertArg`. -/
def normOp (x : Operand) : Operand := (convertArg x).1

/-- Length of the normalized operand, second component of `convertArg`. -/
def opLenN (x : Operand) : Nat := (convertArg x).2

/-- `wrap(arg, i)` for `arg` a normalized operand: take `arg[i % len(arg)]`;
if that element is itself a `PyoObjectBase`, take its first stream
(`x[0]`).  An empty `arg` makes `i % len(arg)` raise `ZeroDivisionError`
in Python; here that failure is `none` (in Lean `i % 0 = i`, which is out
of range of the empty list).  Indexing a bundle (`arg` a `Pyo`) returns
the base stream at that position via `__getitem__`. -/
def wrapO (x : Operand) (i : Nat) : Option AStream :=
  match x with
  | .scalar q => some (.num q)
  | .pyo p => p.baseObjs[i % p.baseObjs.length]?
  | .list l =>
    match l[i % l.length]? with
    | some (.scalar q) => some (.num q)
    | some (.pyo p) => p.baseObjs[0]?
    | none => none

/-- `wrap(self._base_objs, i)`: wrap over a raw Python list of base
stream objects (none of which is a `PyoObjectBase`). -/
def wrapB (streams : List AStream) (i : Nat) : Option AStream :=
  streams[i % streams.length]?

/-- All-or-nothing mapping of a fallible function over a list (the Lean
rendering of a Python list comprehension whose body may raise). -/
def listOptM (f : α → Option β) : List α → Option (List β)
  | [] => some []
  | a :: l =>
    match f a, listOptM f l with
    | some b, some bs => some (b :: bs)
    | _, _ => none

/-- `Dummy(objs_list)` in the arithmetic engine: every element handed to
it there is a base stream object produced by a C-level stream operator,
so the one-level flattening of `Dummy.__init__` (see `dummyInit` below)
leaves the list unchanged; the composite starts with the default
`PyoObject.__init__` state (`_op_duplicate = 1`, `_zeros = None`). -/
def mkDummy (streams : List AStream) : Pyo :=
  { baseObjs := streams, opDup := 1, zerosId := none }

/-- `PyoObject.__add__`: normalize the operand; if `len(self) >= lmax`,
build `Dummy([obj + wrap(x, i // self._op_duplicate) for i, obj in
enumerate(self._base_objs)])`; otherwise delegate to `x + self` when the
operand is a bundle, and to `Dummy([wrap(self._base_objs, i) + obj for
i, obj in enumerate(x)])` when it is a list.  A bundle element inside a
longer plain-list operand crosses into the C extension's stream-level
operator, outside this embedding's scope, and is left undefined. -/
def pyoAdd (a : Pyo) (x : Operand) : Option Pyo :=
  if _h : opLenN x ≤ a.baseObjs.length then
    (listOptM
      (fun i => (wrapO (normOp x) (i / a.opDup)).map
        (fun w => AStream.addS (a.baseObjs.getD i (.num 0)) w))
      (List.range a.baseObjs.length)).map mkDummy
  else
    match x with
    | .pyo b => pyoAdd b (.pyo a)
    | .scalar q =>
      (listOptM
        (fun pr => (wrapB a.baseObjs pr.1).map
          (fun w => AStream.addS w (.num pr.2)))
        ([q].enum)).map mkDummy
    | .list l =>
      (listOptM
        (fun pr =>
          match wrapB a.baseObjs pr.1, pr.2 with
          | some w, .scalar q => some (AStream.addS w (.num q))
          | _, _ => none)
        l.enum).map mkDummy
termination_by opLenN x
decreasing_by
  simp only [opLenN, convertArg] at *
  omega

/-- `PyoObject.__sub__`: same shape as `__add__`, except that a longer
bundle operand is handled directly by `Dummy([wrap(self._base_objs, i) -
wrap(x, i) for i in range(lmax)])` instead of delegating. -/
def pyoSub (a : Pyo) (x : Operand) : Option Pyo :=
  if opLenN x ≤ a.baseObjs.length then
    (listOptM
      (fun i => (wrapO (normOp x) (i / a.opDup)).map
        (fun w => AStream.subS (a.baseObjs.getD i (.num 0)) w))
      (List.range a.baseObjs.length)).map mkDummy
  else
    match x with
    | .pyo b =>
      (listOptM
        (fun i =>
          match wrapB a.baseObjs i, wrapO (.pyo b) i with
          | some u, some w => some (AStream.subS u w)
          | _, _ => none)
        (List.range b.baseObjs.length)).map mkDummy
    | .scalar q =>
      (listOptM
        (fun pr => (wrapB a.baseObjs pr.1).map
          (fun w => AStream.subS w (.num pr.2)))
        ([q].enum)).map mkDummy
    | .list l =>
      (listOptM
        (fun pr =>
          match wrapB a.baseObjs pr.1, pr.2 with
          | some w, .scalar q => some (AStream.subS w (.num q))
          | _, _ => none)
        l.enum).map mkDummy

/-- `PyoObject.__neg__` with explicit allocation state: `fresh` is the
next free `Sig` allocation id.  If `self._zeros is None`, a `Sig(0)` is
allocated and memoized on the object, then the result is
`self._zeros - self`.  Returns (result, updated self, next free id). -/
def negP (a : Pyo) (fresh : Nat) : Option Pyo × Pyo × Nat :=
  match a.zerosId with
  | some z => (pyoSub (sigZero z) (.pyo a), a, fresh)
  | none =>
    let a' := { a with zerosId := some fresh }
    (pyoSub (sigZero fresh) (.pyo a'), a', fresh + 1)

/-!  Comparison dispatch (`__lt__` .. `__ge__`, `__do_comp__`). -/

/-- Result of a comparison operator on a bundle: either a plain Python
boolean (operand was `None`) or a `Compare(self, comp, mode)` node. -/
inductive CompResult where
  | boolR (b : Bool)
  | nodeR (input : Pyo) (comp : Operand) (mode : String)
deriving DecidableEq

/-- `Compare.comp_dict`: the mode string handed to `Compare_base`. -/
def compDict (mode : String) : Option Nat :=
  if mode = "<" then some 0
  else if mode = "<=" then some 1
  else if mode = ">" then some 2
  else if mode = ">=" then some 3
  else if mode = "==" then some 4
  else if mode = "!=" then some 5
  else none

/-- `PyoObject.__do_comp__(comp, mode, default)`: `None` operands yield
the plain boolean `default`; otherwise a `Compare` node is built. -/
def doComp (self : Pyo) (comp : Option Operand) (mode : String)
    (default : Bool) : CompResult :=
  match comp with
  | none => .boolR default
  | some c => .nodeR self c mode

def pyoLt (a : Pyo) (x : Option Operand) : CompResult := doComp a x "<" false

def pyoLe (a : Pyo) (x : Option Operand) : CompResult := doComp a x "<=" false

def pyoEqC (a : Pyo) (x : Option Operand) : CompResult := doComp a x "==" false

def pyoNe (a : Pyo) (x : Option Operand) : CompResult := doComp a x "!=" true

def pyoGt (a : Pyo) (x : Option Operand) : CompResult := doComp a x ">" false

def pyoGe (a : Pyo) (x : Option Operand) : CompResult := doComp a x ">=" false

/-!  In-place operators (`__iadd__`, `__isub__`, `__imul__`, `__idiv__`)
and the `setMul`/`setAdd`/`setSub`/`setDiv` calls they dispatch to. -/

/-- A base stream unit together with its C-level `mul`/`add`
post-processing state, as driven by the `setMul`/`setAdd`/`setSub`/
`setDiv` stream-unit methods. -/
structure SUnit where
  sstream : AStream
  umul : AStream
  uadd : AStream
deriving DecidableEq

/-- Stream-unit `setMul`: replace the unit's `mul`. -/
def usetMul (u : SUnit) (v : AStream) : SUnit := { u with umul := v }

/-- Stream-unit `setAdd`: replace the unit's `add`. -/
def usetAdd (u : SUnit) (v : AStream) : SUnit := { u with uadd := v }

/-- Stream-unit `setSub`.  Modelled from the spec: the C-level stream
unit is external to `_core.py`; per the documented contract ("Replace
and inverse the `add` attribute") it stores the additive inverse of the
given value. -/
def usetSub (u : SUnit) (v : AStream) : SUnit :=
  { u with uadd := .subS (.num 0) v }

/-- Stream-unit `setDiv`.  Modelled from the spec: the C-level stream
unit is external to `_core.py`; per the documented contract ("Replace
and inverse the `mul` attribute") it stores the multiplicative inverse
of the given value. -/
def usetDiv (u : SUnit) (v : AStream) : SUnit :=
  { u with umul := .divS (.num 1) v }

/-- A `PyoObject` bundle as seen by the in-place operators: its stream
units with their `mul`/`add` state, its `_op_duplicate` factor and its
Python-level `_mul`/`_add` attributes. -/
structure PyoB where
  units : List SUnit
  opDupB : Nat
  mulF : Operand
  addF : Operand
deriving DecidableEq

/-- `PyoObject.setAdd(x)`: store `x` in `self._add`, then call
`obj.setAdd(wrap(x, i // self._op_duplicate))` on every base unit. -/
def setAddB (b : PyoB) (x : Operand) : Option PyoB :=
  (listOptM
    (fun pr => (wrapO (normOp x) (pr.1 / b.opDupB)).map (usetAdd pr.2))
    b.units.enum).map
    (fun us => { b with addF := x, units := us })

/-- `PyoObject.setSub(x)`: store `x` in `self._add`, then call
`obj.setSub(wrap(x, i // self._op_duplicate))` on every base unit. -/
def setSubB (b : PyoB) (x : Operand) : Option PyoB :=
  (listOptM
    (fun pr => (wrapO (normOp x) (pr.1 / b.opDupB)).map (usetSub pr.2))
    b.units.enum).map
    (fun us => { b with addF := x, units := us })

/-- `PyoObject.setMul(x)`: store `x` in `self._mul`, then call
`obj.setMul(wrap(x, i // self._op_duplicate))` on every base unit. -/
def setMulB (b : PyoB) (x : Operand) : Option PyoB :=
  (listOptM
    (fun pr => (wrapO (normOp x) (pr.1 / b.opDupB)).map (usetMul pr.2))
    b.units.enum).map
    (fun us => { b with mulF := x, units := us })

/-- `PyoObject.setDiv(x)`: store `x` in `self._mul`, then call
`obj.setDiv(wrap(x, i // self._op_duplicate))` on every base unit. -/
def setDivB (b : PyoB) (x : Operand) : Option PyoB :=
  (listOptM
    (fun pr => (wrapO (normOp x) (pr.1 / b.opDupB)).map (usetDiv pr.2))
    b.units.enum).map
    (fun us => { b with mulF := x, units := us })

/-- `PyoObject.__iadd__`: `self.setAdd(x); return self`. -/
def iaddB (b : PyoB) (x : Operand) : Option PyoB := setAddB b x

/-- `PyoObject.__isub__`: `self.setSub(x); return self`. -/
def isubB (b : PyoB) (x : Operand) : Option PyoB := setSubB b x

/-- `PyoObject.__imul__`: `self.setMul(x); return self`. -/
def imulB (b : PyoB) (x : Operand) : Option PyoB := setMulB b x

/-- `PyoObject.__idiv__`: `self.setDiv(x); return self`. -/
def idivB (b : PyoB) (x : Operand) : Option PyoB := setDivB b x

/-!  `Dummy.__init__` one-level flattening. -/

/-- An element of the `objs_list` handed to `Dummy.__init__`: either a
base stream object or a `Dummy` composite (represented by its computed
`_base_objs` list, the value its `getBaseObjects()` returns). -/
inductive PyElem where
  | streamU (id : Nat)
  | dummyB (objs : List PyElem)

/-- `Dummy.__init__(objs_list)`: every element that is a `Dummy`
contributes its `getBaseObjects()` in place (`tmp_list.extend`), every
other element contributes itself (`tmp_list.append`). -/
def dummyInit : List PyElem → List PyElem
  | [] => []
  | .dummyB b :: rest => b ++ dummyInit rest
  | e :: rest => e :: dummyInit rest

/-- A list of stream objects is flat when no element is a composite. -/
def isFlat (l : List PyElem) : Prop :=
  ∀ e ∈ l, ∀ b, e ≠ PyElem.dummyB b

/-- The elements that can reach a `Dummy` constructor call: base stream
objects, and composites that were themselves built by `Dummy.__init__`
from such elements. -/
inductive GoodElem : PyElem → Prop where
  | streamU (id : Nat) : GoodElem (.streamU id)
  | dummyB (l : List PyElem) (h : ∀ e ∈ l, GoodElem e) :
      GoodElem (.dummyB (dummyInit l))

/-!  `Mix.__init__` voice distribution. -/

/-- In-place update of one position of a list (Python
`sub_lists[j].append(...)` style mutation). -/
def listModify (f : α → α) : Nat → List α → List α
  | _, [] => []
  | 0, a :: l => f a :: l
  | n + 1, a :: l => a :: listModify f n l

/-- The `voices`/`num` computation of `Mix.__init__`: `voices` is the
requested voice count (a Python int, possibly negative), `inputLen` the
flattened input stream count, `lmax` the normalized length of the
`mul`/`add` arguments.  Returns the effective voice count and the
iteration count `num`. -/
def mixNum (inputLen : Nat) (voices : Int) (lmax : Nat) : Int × Nat :=
  if voices < 1 then (1, 1)
  else if voices > (inputLen : Int) ∧ voices > (lmax : Int) then
    (voices, voices.toNat)
  else if lmax > inputLen then (voices, lmax)
  else (voices, inputLen)

/-- The round-robin distribution loop of `Mix.__init__`: `sub_lists` is
a list of `voices` empty lists; for `i` in `range(num)`,
`input_objs[i % input_len]` is appended to `sub_lists[i % voices]`. -/
def mixAssign (inputObjs : List AStream) (voices num : Nat) :
    List (List AStream) :=
  (List.range num).foldl
    (fun acc i =>
      listModify (fun sub => sub ++ [inputObjs.getD (i % inputObjs.length) (.num 0)])
        (i % voices) acc)
    (List.replicate voices [])

/-- `Mix.__init__` from the flattened input stream list: each resulting
sub-list is the set of input streams accumulated (summed) into the
corresponding `Mix_base` output voice. -/
def mixInit (inputObjs : List AStream) (voices : Int) (lmax : Nat) :
    List (List AStream) :=
  let vn := mixNum inputObjs.length voices lmax
  mixAssign inputObjs vn.1.toNat vn.2

/-!  `pyoArgsAssert` argument validation. -/

/-- A Python argument as classified by `pyoArgsAssert`: its `type()`
together with the extra predicates the validator consults
(`isAudioObject`, `isTableObject`, `isMatrixObject`, `isPVObject`,
`callable`).  Lists and tuples carry their elements so that the claims
can quantify over element contents. -/
inductive PyArg where
  | intV (n : Int)
  | floatV (q : Rat)
  | strV (s : String)
  | boolV (b : Bool)
  | listV (l : List PyArg)
  | tupleV (l : List PyArg)
  | noneV
  | audioV
  | tableV
  | matrixV
  | pvV
  | callV

/-- `isAudioObject(arg)`. -/
def isAudioA : PyArg → Bool
  | .audioV => true
  | _ => false

/-- `isTableObject(arg)`. -/
def isTableA : PyArg → Bool
  | .tableV => true
  | _ => false

/-- `isMatrixObject(arg)`. -/
def isMatrixA : PyArg → Bool
  | .matrixV => true
  | _ => false

/-- `isPVObject(arg)`. -/
def isPVA : PyArg → Bool
  | .pvV => true
  | _ => false

/-- `callable(arg)`. -/
def isCallableA : PyArg → Bool
  | .callV => true
  | _ => false

def isListT : PyArg → Bool
  | .listV _ => true
  | _ => false

def isTupleT : PyArg → Bool
  | .tupleV _ => true
  | _ => false

def isIntT : PyArg → Bool
  | .intV _ => true
  | _ => false

def isFloatT : PyArg → Bool
  | .floatV _ => true
  | _ => false

def isStrT : PyArg → Bool
  | .strV _ => true
  | _ => false

def isBoolT : PyArg → Bool
  | .boolV _ => true
  | _ => false

def isNoneT : PyArg → Bool
  | .noneV => true
  | _ => false

/-- One format-letter check of `pyoArgsAssert` (Python 3, so `longType`
is `None` and never matches a type).  Returns the `expected` message
when the argument's type is not accepted, `none` when it passes. -/
def checkArg (f : Char) (a : PyArg) : Option String :=
  if f = 'O' then
    if !isAudioA a && !(isListT a || isIntT a || isFloatT a) then
      some "float or PyoObject" else none
  else if f = 'o' then
    if !isAudioA a && !isListT a then some "PyoObject" else none
  else if f = 'T' then
    if !isTableA a && !(isFloatT a || isListT a) then
      some "float or PyoTableObject" else none
  else if f = 't' then
    if !isTableA a && !isListT a then some "PyoTableObject" else none
  else if f = 'm' then
    if !isMatrixA a && !isListT a then some "PyoMatrixObject" else none
  else if f = 'p' then
    if !isPVA a && !isListT a then some "PyoPVObject" else none
  else if f = 'n' then
    if !(isListT a || isIntT a || isFloatT a) then
      some "any number" else none
  else if f = 'N' then
    if !(isIntT a || isFloatT a) then
      some "any number - list not allowed" else none
  else if f = 'f' then
    if !(isListT a || isFloatT a) then some "float" else none
  else if f = 'F' then
    if !isFloatT a then some "float - list not allowed" else none
  else if f = 'i' then
    if !(isListT a || isIntT a) then some "integer" else none
  else if f = 'I' then
    if !isIntT a then some "integer - list not allowed" else none
  else if f = 's' then
    if !(isListT a || isStrT a) then some "string" else none
  else if f = 'S' then
    if !isStrT a then some "string - list not allowed" else none
  else if f = 'b' then
    if !(isBoolT a || isListT a || isIntT a) then
      some "boolean" else none
  else if f = 'B' then
    if !(isBoolT a || isIntT a) then
      some "boolean - list not allowed" else none
  else if f = 'l' then
    if !isListT a then some "list" else none
  else if f = 'L' then
    if !(isListT a || isNoneT a) then some "list or None" else none
  else if f = 'u' then
    if !isTupleT a then some "tuple" else none
  else if f = 'x' then
    if !(isListT a || isTupleT a) then some "list or tuple" else none
  else if f = 'c' then
    if !isCallableA a && !(isListT a || isTupleT a || isNoneT a) then
      some "callable" else none
  else if f = 'C' then
    if !isCallableA a && !isNoneT a then
      some "callable - list not allowed" else none
  else none

/-- `pyoArgsAssert(obj, format, *args)`: scan the arguments in order
against the format letters and stop at the first failure, reporting its
position and the expected category; `none` means all arguments pass. -/
def pyoArgsA (format : List Char) (args : List PyArg) : Option (Nat × String) :=
  go 0 format args
where
  go (i : Nat) : List Char → List PyArg → Option (Nat × String)
    | _, [] => none
    | [], _ => none
    | f :: fs, a :: rest =>
      match checkArg f a with
      | some msg => some (i, msg)
      | none => go (i + 1) fs rest

/-!  The `set()` parameter-ramp scheduler (`PyoObject.set`,
`PyoObject._reset_from_set`, `VarPort`).

The model follows one attribute of one single-stream bundle.  The
`VarPort_base` C stream unit is external to `_core.py`; its ramp
behaviour is modelled from the spec: it interpolates linearly from
`init` to `value` over `time` seconds of engine time, and fires its
end-of-line function exactly when a playing ramp reaches its duration.
`VarPort.get(True)` returns the ramp's currently interpolated value and
`VarPort.stop()` clears its playing flag. -/

/-- One `VarPort` object: target `value`, ramp `time`, sampled origin
`init`, engine time elapsed since creation, and its playing flag. -/
structure VP where
  vtarget : Rat
  vdur : Rat
  vinit : Rat
  velapsed : Rat
  vplaying : Bool
deriving DecidableEq

/-- Modelled from the spec: the currently interpolated value of a
`VarPort` ramp (linear curve), i.e. what `VarPort.get(True)` samples. -/
def vpValue (v : VP) : Rat :=
  if v.vdur ≤ v.velapsed then v.vtarget
  else v.vinit + (v.vtarget - v.vinit) * (v.velapsed / v.vdur)

/-- The value currently held by the ramped attribute: a literal number
or a reference to a `VarPort` object (by its index in the system's
allocation list). -/
inductive AttrVal where
  | numA (q : Rat)
  | rampA (vid : Nat)
deriving DecidableEq

/-- The scheduler state for one attribute of a bundle: the attribute's
value, the `_target_dict`, `_callback_dict` and `_signal_dict` entries
for it, every `VarPort` ever allocated (superseded ones included, so
that "stopped" and "never called back" are observable), and the list of
user callbacks invoked so far (callbacks are named by `Nat` ids).  In
`callbackD`, `none` models an absent dictionary key and `some none` a
key holding Python `None`. -/
structure RampSys where
  attrVal : AttrVal
  targetD : Option Rat
  callbackD : Option (Option Nat)
  signalD : Option Nat
  vps : List VP
  invoked : List Nat
deriving DecidableEq

/-- Stop the `VarPort` at index `vid` (its `stop()` method). -/
def stopVP (vps : List VP) (vid : Nat) : List VP :=
  listModify (fun v => { v with vplaying := false }) vid vps

/-- `PyoObject._reset_from_set(attr)`: if the attribute still holds a
`VarPort`, snap it to `self._target_dict[attr]` and, when the registered
callback is not `None`, invoke it and delete it from `_callback_dict`;
finally stop `self._signal_dict[attr]`.  `none` models a Python
`KeyError` on a missing dictionary entry. -/
def resetFromSet (s : RampSys) : Option RampSys :=
  let s1? : Option RampSys :=
    match s.attrVal with
    | .rampA _ =>
      match s.targetD with
      | none => none
      | some t =>
        let s' := { s with attrVal := .numA t }
        match s'.callbackD with
        | none => none
        | some none => some s'
        | some (some c) =>
          some { s' with invoked := s'.invoked ++ [c], callbackD := none }
    | .numA _ => some s
  match s1? with
  | none => none
  | some s1 =>
    match s1.signalD with
    | none => none
    | some vid => some { s1 with vps := stopVP s1.vps vid }

/-- `PyoObject.set(attr, value, port, callback)`: record the target and
the callback, take the attribute's current value as origin unless an
active (playing) ramp exists for the attribute, in which case sample
that ramp's current value and stop it; then allocate a new `VarPort`
from the origin to `value` over `port` seconds and store it both in
`_signal_dict` and in the attribute.  `none` models the
`PyoArgumentTypeError` raised when the origin is not a number (the
attribute holds a stale, non-playing `VarPort` object). -/
def setOp (s : RampSys) (value port : Rat) (cb : Option Nat) : Option RampSys :=
  let s1 := { s with targetD := some value, callbackD := some cb }
  let mkNew : List VP → Rat → RampSys := fun vps init =>
    { s1 with
      vps := vps ++ [⟨value, port, init, 0, true⟩],
      signalD := some vps.length,
      attrVal := .rampA vps.length }
  let fromAttr : Option Rat :=
    match s1.attrVal with
    | .numA q => some q
    | .rampA _ => none
  match s1.signalD with
  | some vid =>
    match s1.vps[vid]? with
    | some vp =>
      if vp.vplaying then
        some (mkNew (stopVP s1.vps vid) (vpValue vp))
      else
        (fromAttr).map (mkNew s1.vps)
    | none => (fromAttr).map (mkNew s1.vps)
  | none => (fromAttr).map (mkNew s1.vps)

/-- One engine event the scheduler reacts to: `adv dt` advances engine
time by `dt` (firing the end-of-line function of a ramp that reaches its
duration), `setA` is a new `set()` call on the attribute. -/
inductive ROp where
  | adv (dt : Rat)
  | setA (value port : Rat) (cb : Option Nat)

/-- Modelled from the spec: one engine buffer step of a playing
`VarPort` stream advances its elapsed time (a stopped stream does not
advance). -/
def bumpVP (dt : Rat) (v : VP) : VP :=
  if v.vplaying then { v with velapsed := v.velapsed + dt } else v

/-- Engine time advance: every playing `VarPort` progresses; if the
attribute's ramp thereby reaches its duration while playing, its
end-of-line function (`_reset_from_set`) fires. -/
def advance (dt : Rat) (s : RampSys) : Option RampSys :=
  if (s.vps.map (bumpVP dt)).any
      (fun v => v.vplaying && decide (v.vdur ≤ v.velapsed)) then
    resetFromSet { s with vps := s.vps.map (bumpVP dt) }
  else
    some { s with vps := s.vps.map (bumpVP dt) }

/-- One scheduler step. -/
def stepR (s : RampSys) : ROp → Option RampSys
  | .adv dt => advance dt s
  | .setA v p c => setOp s v p c

/-- Run a sequence of scheduler events. -/
def runR (s : RampSys) : List ROp → Option RampSys
  | [] => some s
  | op :: rest =>
    match stepR s op with
    | none => none
    | some s' => runR s' rest

/-- The callback ids registered by the `set()` calls of an event list. -/
def cbsOf (ops : List ROp) : List Nat :=
  ops.foldr
    (fun op acc =>
      match op with
      | .setA _ _ (some c) => c :: acc
      | _ => acc)
    []

/-!  Helper lemmas. -/

theorem listOptM_eq_map (f : α → Option β) (g : α → β) (l : List α)
    (h : ∀ x ∈ l, f x = some (g x)) : listOptM f l = some (l.map g) := by
  induction l with
  | nil => rfl
  | cons a t ih =>
    simp only [listOptM, List.map]
    rw [h a (by simp), ih (fun x hx => h x (by simp [hx]))]

theorem listOptM_eq_none (f : α → Option β) {l : List α} {x : α}
    (hx : x ∈ l) (h : f x = none) : listOptM f l = none := by
  induction l with
  | nil => cases hx
  | cons a t ih =>
    simp only [listOptM]
    rcases List.mem_cons.mp hx with rfl | hmem
    · rw [h]
    · rw [ih hmem]
      cases f a <;> rfl

theorem listOptM_isSome (f : α → Option β) (l : List α)
    (h : ∀ x ∈ l, (f x).isSome) : (listOptM f l).isSome := by
  induction l with
  | nil => rfl
  | cons a t ih =>
    simp only [listOptM]
    have ha := h a (by simp)
    have ht := ih (fun x hx => h x (by simp [hx]))
    cases hfa : f a
    · rw [hfa] at ha; cases ha
    · cases hot : listOptM f t
      · rw [hot] at ht; cases ht
      · rfl

theorem getElem?_eq_some_getD {l : List α} {i : Nat} (d : α)
    (h : i < l.length) : l[i]? = some (l.getD i d) := by
  rw [List.getElem?_eq_getElem h, List.getD_eq_getElem l d h]

theorem range_map_getD (l : List α) (d : α) (h : α → β) :
    (List.range l.length).map (fun i => h (l.getD i d)) = l.map h := by
  apply List.ext_getElem?
  intro i
  rw [List.getElem?_map, List.getElem?_map]
  by_cases hi : i < l.length
  · rw [List.getElem?_range hi, getElem?_eq_some_getD d hi]
    rfl
  · rw [List.getElem?_eq_none (l := l) (by simpa using hi),
      List.getElem?_eq_none (by simpa using hi)]
    rfl

theorem length_listModify (f : α → α) (n : Nat) (l : List α) :
    (listModify f n l).length = l.length := by
  induction l generalizing n with
  | nil => cases n <;> rfl
  | cons a t ih =>
    cases n with
    | zero => rfl
    | succ m => simp [listModify, ih]

theorem getElem?_listModify (f : α → α) (n k : Nat) (l : List α) :
    (listModify f n l)[k]? = if n = k then (l[k]?).map f else l[k]? := by
  induction l generalizing n k with
  | nil => simp [listModify]
  | cons a t ih =>
    cases n with
    | zero =>
      cases k with
      | zero => simp [listModify]
      | succ j => simp [listModify]
    | succ m =>
      cases k with
      | zero => simp [listModify]
      | succ j => simpa [listModify] using ih m j

/-!  Claim theorems. -/

/-- C5: comparing a bundle against `None` returns the plain boolean
`False` for `<`, `<=`, `==`, `>`, `>=` and the plain boolean `True` for
`!=`, constructing no comparison node; against any non-`None` operand
each comparison operator returns a `Compare` node with the
corresponding mode string (each a valid key of `comp_dict`). -/
theorem spec_c5 (a : Pyo) :
    pyoLt a none = .boolR false ∧ pyoLe a none = .boolR false ∧
    pyoEqC a none = .boolR false ∧ pyoGt a none = .boolR false ∧
    pyoGe a none = .boolR false ∧ pyoNe a none = .boolR true ∧
    (∀ c : Operand,
      pyoLt a (some c) = .nodeR a c "<" ∧
      pyoLe a (some c) = .nodeR a c "<=" ∧
      pyoEqC a (some c) = .nodeR a c "==" ∧
      pyoNe a (some c) = .nodeR a c "!=" ∧
      pyoGt a (some c) = .nodeR a c ">" ∧
      pyoGe a (some c) = .nodeR a c ">=") ∧
    compDict "<" = some 0 ∧ compDict "<=" = some 1 ∧
    compDict "==" = some 4 ∧ compDict "!=" = some 5 ∧
    compDict ">" = some 2 ∧ compDict ">=" = some 3 :=
  ⟨rfl, rfl, rfl, rfl, rfl, rfl,
    fun _ => ⟨rfl, rfl, rfl, rfl, rfl, rfl⟩,
    by decide, by decide, by decide, by decide, by decide, by decide⟩

/-- C10: for the list-expandable format codes `'O'`, `'n'`, `'f'`,
`'i'`, `'s'`, `'b'`, an argument of type `list` passes `pyoArgsAssert`
whatever its elements are (the validator never inspects list
elements). -/
theorem spec_c10 :
    (∀ l : List PyArg, pyoArgsA ['O'] [.listV l] = none) ∧
    (∀ l : List PyArg, pyoArgsA ['n'] [.listV l] = none) ∧
    (∀ l : List PyArg, pyoArgsA ['f'] [.listV l] = none) ∧
    (∀ l : List PyArg, pyoArgsA ['i'] [.listV l] = none) ∧
    (∀ l : List PyArg, pyoArgsA ['s'] [.listV l] = none) ∧
    (∀ l : List PyArg, pyoArgsA ['b'] [.listV l] = none) :=
  ⟨fun _ => rfl, fun _ => rfl, fun _ => rfl,
    fun _ => rfl, fun _ => rfl, fun _ => rfl⟩

theorem isFlat_append {l1 l2 : List PyElem} (h1 : isFlat l1)
    (h2 : isFlat l2) : isFlat (l1 ++ l2) := by
  intro e he
  rcases List.mem_append.mp he with h | h
  · exact h1 e h
  · exact h2 e h

theorem flat_dummyInit (l : List PyElem)
    (h : ∀ e ∈ l, ∀ b, e = PyElem.dummyB b → isFlat b) :
    isFlat (dummyInit l) := by
  induction l with
  | nil => intro e he; cases he
  | cons a t ih =>
    have ht : isFlat (dummyInit t) :=
      ih (fun e he b hb => h e (by simp [he]) b hb)
    cases a with
    | streamU id =>
      intro e he b hb
      rcases List.mem_cons.mp he with rfl | hmem
      · cases hb
      · exact ht e hmem b hb
    | dummyB objs =>
      exact isFlat_append (h _ (by simp) objs rfl) ht

theorem goodElem_flat {e : PyElem} (hg : GoodElem e) :
    ∀ b, e = PyElem.dummyB b → isFlat b := by
  induction hg with
  | streamU id => intro b hb; cases hb
  | dummyB l h ih =>
    intro b hb
    cases hb
    exact flat_dummyInit l ih

/-- C9: `Dummy.__init__` flattens exactly one level: a composite element
contributes its base stream objects in place, any other element
contributes itself; consequently, on any `objs_list` whose composites
were themselves built by `Dummy.__init__`, the resulting stream list is
flat (contains no composite). -/
theorem spec_c9 (l l1 l2 b : List PyElem) (id : Nat)
    (hg : ∀ x ∈ l, GoodElem x) :
    dummyInit (l1 ++ PyElem.dummyB b :: l2) =
      dummyInit l1 ++ b ++ dummyInit l2 ∧
    dummyInit (l1 ++ PyElem.streamU id :: l2) =
      dummyInit l1 ++ PyElem.streamU id :: dummyInit l2 ∧
    isFlat (dummyInit l) := by
  have happ : ∀ (p q : List PyElem),
      dummyInit (p ++ q) = dummyInit p ++ dummyInit q := by
    intro p q
    induction p with
    | nil => rfl
    | cons a t ih =>
      cases a with
      | streamU i => simp [dummyInit, ih]
      | dummyB objs => simp [dummyInit, ih]
  refine ⟨?_, ?_, ?_⟩
  · rw [happ, List.append_assoc]
    simp [dummyInit]
  · rw [happ]
    simp [dummyInit]
  · exact flat_dummyInit l (fun e he bb hb => goodElem_flat (hg e he) bb hb)

/-- Witness for C9 at a concrete `objs_list` mixing a stream object and
previously constructed composites. -/
theorem spec_c9_witness :
    (∀ x ∈ [PyElem.streamU 0,
            PyElem.dummyB [PyElem.streamU 1, PyElem.streamU 2]], GoodElem x) ∧
    (dummyInit ([PyElem.streamU 5] ++
        PyElem.dummyB [PyElem.streamU 6] :: [PyElem.streamU 7]) =
      dummyInit [PyElem.streamU 5] ++ [PyElem.streamU 6] ++
        dummyInit [PyElem.streamU 7] ∧
     dummyInit ([PyElem.streamU 5] ++
        PyElem.streamU 8 :: [PyElem.streamU 7]) =
      dummyInit [PyElem.streamU 5] ++
        PyElem.streamU 8 :: dummyInit [PyElem.streamU 7] ∧
     isFlat (dummyInit [PyElem.streamU 0,
            PyElem.dummyB [PyElem.streamU 1, PyElem.streamU 2]])) := by
  have hg : ∀ x ∈ [PyElem.streamU 0,
      PyElem.dummyB [PyElem.streamU 1, PyElem.streamU 2]], GoodElem x := by
    intro x hx
    rcases List.mem_cons.mp hx with rfl | hx
    · exact GoodElem.streamU 0
    · rcases List.mem_cons.mp hx with rfl | hx
      · exact GoodElem.dummyB [PyElem.streamU 1, PyElem.streamU 2]
          (by
            intro e he
            rcases List.mem_cons.mp he with rfl | he
            · exact GoodElem.streamU 1
            · rcases List.mem_cons.mp he with rfl | he
              · exact GoodElem.streamU 2
              · cases he)
      · cases hx
  exact ⟨hg, spec_c9 _ [PyElem.streamU 5] [PyElem.streamU 7]
    [PyElem.streamU 6] 8 hg⟩

theorem optMap_eq_getD {o : Option α} (h : o.isSome) (g : α → β) (d : α) :
    o.map g = some (g (o.getD d)) := by
  cases o
  · cases h
  · rfl

/-- The wrapped value handed to a base unit at index `i` (defined when
the normalized operand is nonempty). -/
def wrapD (x : Operand) (i : Nat) : AStream :=
  (wrapO (normOp x) i).getD (.num 0)

theorem setAddB_eq (b : PyoB) (x : Operand)
    (hw : ∀ i, (wrapO (normOp x) i).isSome) :
    setAddB b x = some
      ⟨b.units.enum.map (fun pr => usetAdd pr.2 (wrapD x (pr.1 / b.opDupB))),
        b.opDupB, b.mulF, x⟩ := by
  unfold setAddB
  rw [listOptM_eq_map _ (fun pr => usetAdd pr.2 (wrapD x (pr.1 / b.opDupB)))
    _ (fun pr _ => optMap_eq_getD (hw (pr.1 / b.opDupB)) _ _)]
  rfl

theorem setSubB_eq (b : PyoB) (x : Operand)
    (hw : ∀ i, (wrapO (normOp x) i).isSome) :
    setSubB b x = some
      ⟨b.units.enum.map (fun pr => usetSub pr.2 (wrapD x (pr.1 / b.opDupB))),
        b.opDupB, b.mulF, x⟩ := by
  unfold setSubB
  rw [listOptM_eq_map _ (fun pr => usetSub pr.2 (wrapD x (pr.1 / b.opDupB)))
    _ (fun pr _ => optMap_eq_getD (hw (pr.1 / b.opDupB)) _ _)]
  rfl

theorem setMulB_eq (b : PyoB) (x : Operand)
    (hw : ∀ i, (wrapO (normOp x) i).isSome) :
    setMulB b x = some
      ⟨b.units.enum.map (fun pr => usetMul pr.2 (wrapD x (pr.1 / b.opDupB))),
        b.opDupB, x, b.addF⟩ := by
  unfold setMulB
  rw [listOptM_eq_map _ (fun pr => usetMul pr.2 (wrapD x (pr.1 / b.opDupB)))
    _ (fun pr _ => optMap_eq_getD (hw (pr.1 / b.opDupB)) _ _)]
  rfl

theorem setDivB_eq (b : PyoB) (x : Operand)
    (hw : ∀ i, (wrapO (normOp x) i).isSome) :
    setDivB b x = some
      ⟨b.units.enum.map (fun pr => usetDiv pr.2 (wrapD x (pr.1 / b.opDupB))),
        b.opDupB, x, b.addF⟩ := by
  unfold setDivB
  rw [listOptM_eq_map _ (fun pr => usetDiv pr.2 (wrapD x (pr.1 / b.opDupB)))
    _ (fun pr _ => optMap_eq_getD (hw (pr.1 / b.opDupB)) _ _)]
  rfl

theorem enum_map_sstream (units : List SUnit)
    (g : Nat × SUnit → AStream → SUnit)
    (hkeep : ∀ pr w, (g pr w).sstream = pr.2.sstream) (v : Nat → AStream) :
    (units.enum.map (fun pr => g pr (v pr.1))).map SUnit.sstream =
      units.map SUnit.sstream := by
  rw [List.map_map]
  have : (SUnit.sstream ∘ fun pr => g pr (v pr.1)) =
      fun pr : Nat × SUnit => pr.2.sstream := by
    funext pr
    exact hkeep pr (v pr.1)
  rw [this]
  have : (fun pr : Nat × SUnit => pr.2.sstream) =
      SUnit.sstream ∘ Prod.snd := rfl
  rw [this, ← List.map_map, List.enum_map_snd]

theorem enumFrom_getElem? (l : List α) (k i : Nat) :
    (List.enumFrom k l)[i]? = (l[i]?).map (fun a => (k + i, a)) := by
  induction l generalizing k i with
  | nil => simp
  | cons a t ih =>
    cases i with
    | zero => simp
    | succ j =>
      simp only [List.enumFrom, List.getElem?_cons_succ, ih (k + 1) j]
      have : k + 1 + j = k + (j + 1) := by omega
      rw [this]

theorem enum_getElem? (l : List α) (i : Nat) :
    l.enum[i]? = (l[i]?).map (fun a => (i, a)) := by
  have h := enumFrom_getElem? l 0 i
  rw [Nat.zero_add] at h
  exact h

/-- C7: the in-place operators create no composite: each replaces the
bundle's own `mul`/`add` factor (`+=`/`*=` store the value, `-=`/`/=`
store it through the inverting `setSub`/`setDiv` unit methods), applies
the wrapped value to every underlying stream unit, and returns the
bundle itself, its stream list unchanged. -/
theorem spec_c7 (b : PyoB) (x : Operand)
    (hw : ∀ i, (wrapO (normOp x) i).isSome) :
    ∃ b1 b2 b3 b4 : PyoB,
      iaddB b x = some b1 ∧ isubB b x = some b2 ∧
      imulB b x = some b3 ∧ idivB b x = some b4 ∧
      b1.units.map SUnit.sstream = b.units.map SUnit.sstream ∧
      b2.units.map SUnit.sstream = b.units.map SUnit.sstream ∧
      b3.units.map SUnit.sstream = b.units.map SUnit.sstream ∧
      b4.units.map SUnit.sstream = b.units.map SUnit.sstream ∧
      b1.addF = x ∧ b1.mulF = b.mulF ∧
      b2.addF = x ∧ b2.mulF = b.mulF ∧
      b3.mulF = x ∧ b3.addF = b.addF ∧
      b4.mulF = x ∧ b4.addF = b.addF ∧
      (∀ i u, b.units[i]? = some u →
        b1.units[i]? = some (usetAdd u (wrapD x (i / b.opDupB))) ∧
        b2.units[i]? = some (usetSub u (wrapD x (i / b.opDupB))) ∧
        b3.units[i]? = some (usetMul u (wrapD x (i / b.opDupB))) ∧
        b4.units[i]? = some (usetDiv u (wrapD x (i / b.opDupB)))) := by
  have hget : ∀ (g : Nat × SUnit → SUnit) (i : Nat) (u : SUnit),
      b.units[i]? = some u →
      (b.units.enum.map g)[i]? = some (g (i, u)) := by
    intro g i u hu
    rw [List.getElem?_map, enum_getElem? b.units i, hu]
    rfl
  refine ⟨_, _, _, _, setAddB_eq b x hw, setSubB_eq b x hw,
    setMulB_eq b x hw, setDivB_eq b x hw,
    ?_, ?_, ?_, ?_, rfl, rfl, rfl, rfl, rfl, rfl, rfl, rfl, ?_⟩
  · exact enum_map_sstream b.units (fun pr w => usetAdd pr.2 w)
      (fun _ _ => rfl) (fun i => wrapD x (i / b.opDupB))
  · exact enum_map_sstream b.units (fun pr w => usetSub pr.2 w)
      (fun _ _ => rfl) (fun i => wrapD x (i / b.opDupB))
  · exact enum_map_sstream b.units (fun pr w => usetMul pr.2 w)
      (fun _ _ => rfl) (fun i => wrapD x (i / b.opDupB))
  · exact enum_map_sstream b.units (fun pr w => usetDiv pr.2 w)
      (fun _ _ => rfl) (fun i => wrapD x (i / b.opDupB))
  · intro i u hu
    exact ⟨hget _ i u hu, hget _ i u hu, hget _ i u hu, hget _ i u hu⟩

/-- Witness for C7: a one-unit bundle updated in place with scalar 2. -/
theorem spec_c7_witness :
    (∀ i, (wrapO (normOp (Operand.scalar 2)) i).isSome) ∧
    (∃ b1 b2 b3 b4 : PyoB,
      iaddB ⟨[⟨.leaf 0, .num 1, .num 0⟩], 1, .scalar 1, .scalar 0⟩
        (.scalar 2) = some b1 ∧
      isubB ⟨[⟨.leaf 0, .num 1, .num 0⟩], 1, .scalar 1, .scalar 0⟩
        (.scalar 2) = some b2 ∧
      imulB ⟨[⟨.leaf 0, .num 1, .num 0⟩], 1, .scalar 1, .scalar 0⟩
        (.scalar 2) = some b3 ∧
      idivB ⟨[⟨.leaf 0, .num 1, .num 0⟩], 1, .scalar 1, .scalar 0⟩
        (.scalar 2) = some b4 ∧
      b1.units.map SUnit.sstream =
        (PyoB.mk [⟨.leaf 0, .num 1, .num 0⟩] 1 (.scalar 1)
          (.scalar 0)).units.map SUnit.sstream ∧
      b2.units.map SUnit.sstream =
        (PyoB.mk [⟨.leaf 0, .num 1, .num 0⟩] 1 (.scalar 1)
          (.scalar 0)).units.map SUnit.sstream ∧
      b3.units.map SUnit.sstream =
        (PyoB.mk [⟨.leaf 0, .num 1, .num 0⟩] 1 (.scalar 1)
          (.scalar 0)).units.map SUnit.sstream ∧
      b4.units.map SUnit.sstream =
        (PyoB.mk [⟨.leaf 0, .num 1, .num 0⟩] 1 (.scalar 1)
          (.scalar 0)).units.map SUnit.sstream ∧
      b1.addF = .scalar 2 ∧ b1.mulF = .scalar 1 ∧
      b2.addF = .scalar 2 ∧ b2.mulF = .scalar 1 ∧
      b3.mulF = .scalar 2 ∧ b3.addF = .scalar 0 ∧
      b4.mulF = .scalar 2 ∧ b4.addF = .scalar 0 ∧
      (∀ i u,
        (PyoB.mk [⟨.leaf 0, .num 1, .num 0⟩] 1 (.scalar 1)
          (.scalar 0)).units[i]? = some u →
        b1.units[i]? = some (usetAdd u (wrapD (.scalar 2) (i / 1))) ∧
        b2.units[i]? = some (usetSub u (wrapD (.scalar 2) (i / 1))) ∧
        b3.units[i]? = some (usetMul u (wrapD (.scalar 2) (i / 1))) ∧
        b4.units[i]? = some (usetDiv u (wrapD (.scalar 2) (i / 1))))) := by
  have hw : ∀ i, (wrapO (normOp (Operand.scalar 2)) i).isSome := by
    intro i
    simp [normOp, convertArg, wrapO, Nat.mod_one]
  exact ⟨hw, spec_c7 ⟨[⟨.leaf 0, .num 1, .num 0⟩], 1, .scalar 1, .scalar 0⟩
    (.scalar 2) hw⟩

theorem pyoAdd_if_aligned (a : Pyo) (x : Operand)
    (h : opLenN x ≤ a.baseObjs.length) :
    pyoAdd a x = (listOptM
      (fun i => (wrapO (normOp x) (i / a.opDup)).map
        (fun w => AStream.addS (a.baseObjs.getD i (.num 0)) w))
      (List.range a.baseObjs.length)).map mkDummy := by
  unfold pyoAdd
  rw [dif_pos h]

theorem pyoAdd_delegate (a b : Pyo)
    (h : ¬ opLenN (Operand.pyo b) ≤ a.baseObjs.length) :
    pyoAdd a (.pyo b) = pyoAdd b (.pyo a) := by
  conv_lhs => unfold pyoAdd
  rw [dif_neg h]

theorem pyoAdd_list_longer (a : Pyo) (l : List OpElem)
    (h : ¬ opLenN (Operand.list l) ≤ a.baseObjs.length) :
    pyoAdd a (.list l) = (listOptM
      (fun pr =>
        match wrapB a.baseObjs pr.1, pr.2 with
        | some w, .scalar q => some (AStream.addS w (.num q))
        | _, _ => none)
      l.enum).map mkDummy := by
  unfold pyoAdd
  rw [dif_neg h]

theorem pyoAdd_pyo_aligned (a b : Pyo) (hb : b.baseObjs ≠ [])
    (h : b.baseObjs.length ≤ a.baseObjs.length) :
    pyoAdd a (.pyo b) = some (mkDummy ((List.range a.baseObjs.length).map
      (fun i => AStream.addS (a.baseObjs.getD i (.num 0))
        (b.baseObjs.getD ((i / a.opDup) % b.baseObjs.length) (.num 0))))) := by
  have hlen : 0 < b.baseObjs.length := List.length_pos.mpr hb
  rw [pyoAdd_if_aligned a (.pyo b) h]
  rw [listOptM_eq_map _
    (fun i => AStream.addS (a.baseObjs.getD i (.num 0))
      (b.baseObjs.getD ((i / a.opDup) % b.baseObjs.length) (.num 0))) _ ?_]
  · rfl
  · intro i _
    show (wrapO (Operand.pyo b) (i / a.opDup)).map _ = _
    rw [show wrapO (Operand.pyo b) (i / a.opDup) =
        b.baseObjs[(i / a.opDup) % b.baseObjs.length]? from rfl]
    rw [getElem?_eq_some_getD (AStream.num 0) (Nat.mod_lt _ hlen)]
    rfl

/-- C1: adding two bundles yields a composite of `max(a, b)` streams;
when `len(self) >= len(x)`, result stream `i` is
`self.stream[i] + x.stream[(i // op_duplicate) mod len(x)]`; and a
wrapped list element that is itself a bundle contributes its first
stream. -/
theorem spec_c1 (a b : Pyo) (ha : a.baseObjs ≠ []) (hb : b.baseObjs ≠ []) :
    ∃ d : Pyo, pyoAdd a (.pyo b) = some d ∧
      d.baseObjs.length = max a.baseObjs.length b.baseObjs.length ∧
      (b.baseObjs.length ≤ a.baseObjs.length →
        ∀ i, i < a.baseObjs.length →
          d.baseObjs[i]? = some (.addS (a.baseObjs.getD i (.num 0))
            (b.baseObjs.getD ((i / a.opDup) % b.baseObjs.length)
              (.num 0)))) ∧
      (∀ (l : List OpElem) (p : Pyo) (j : Nat),
        l[j % l.length]? = some (.pyo p) →
        wrapO (.list l) j = p.baseObjs[0]?) := by
  have hwrap : ∀ (l : List OpElem) (p : Pyo) (j : Nat),
      l[j % l.length]? = some (.pyo p) →
      wrapO (.list l) j = p.baseObjs[0]? := by
    intro l p j hj
    simp [wrapO, hj]
  rcases le_or_lt b.baseObjs.length a.baseObjs.length with hle | hlt
  · refine ⟨_, pyoAdd_pyo_aligned a b hb hle, ?_, ?_, hwrap⟩
    · show ((List.range a.baseObjs.length).map _).length = _
      rw [List.length_map, List.length_range, Nat.max_eq_left hle]
    · intro _ i hi
      show ((List.range a.baseObjs.length).map _)[i]? = _
      rw [List.getElem?_map, List.getElem?_range hi]
      rfl
  · rw [pyoAdd_delegate a b
      (by simp only [opLenN, convertArg]; omega)]
    refine ⟨_, pyoAdd_pyo_aligned b a ha (Nat.le_of_lt hlt), ?_, ?_, hwrap⟩
    · show ((List.range b.baseObjs.length).map _).length = _
      rw [List.length_map, List.length_range,
        Nat.max_eq_right (Nat.le_of_lt hlt)]
    · intro hba
      omega

/-- Witness for C1: a three-stream bundle plus a two-stream bundle. -/
theorem spec_c1_witness :
    (Pyo.mk [.leaf 0, .leaf 1, .leaf 2] 1 none).baseObjs ≠ [] ∧
    (Pyo.mk [.leaf 10, .leaf 11] 1 none).baseObjs ≠ [] ∧
    (∃ d : Pyo,
      pyoAdd (Pyo.mk [.leaf 0, .leaf 1, .leaf 2] 1 none)
        (.pyo (Pyo.mk [.leaf 10, .leaf 11] 1 none)) = some d ∧
      d.baseObjs.length =
        max (Pyo.mk [.leaf 0, .leaf 1, .leaf 2] 1 none).baseObjs.length
          (Pyo.mk [.leaf 10, .leaf 11] 1 none).baseObjs.length ∧
      ((Pyo.mk [.leaf 10, .leaf 11] 1 none).baseObjs.length ≤
          (Pyo.mk [.leaf 0, .leaf 1, .leaf 2] 1 none).baseObjs.length →
        ∀ i, i < (Pyo.mk [.leaf 0, .leaf 1, .leaf 2] 1 none).baseObjs.length →
          d.baseObjs[i]? = some (.addS
            ((Pyo.mk [.leaf 0, .leaf 1, .leaf 2] 1 none).baseObjs.getD i
              (.num 0))
            ((Pyo.mk [.leaf 10, .leaf 11] 1 none).baseObjs.getD
              ((i / (Pyo.mk [.leaf 0, .leaf 1, .leaf 2] 1 none).opDup) %
                (Pyo.mk [.leaf 10, .leaf 11] 1 none).baseObjs.length)
              (.num 0)))) ∧
      (∀ (l : List OpElem) (p : Pyo) (j : Nat),
        l[j % l.length]? = some (.pyo p) →
        wrapO (.list l) j = p.baseObjs[0]?)) :=
  ⟨by decide, by decide,
    spec_c1 (Pyo.mk [.leaf 0, .leaf 1, .leaf 2] 1 none)
      (Pyo.mk [.leaf 10, .leaf 11] 1 none) (by decide) (by decide)⟩

theorem isSome_map_of {o : Option α} (f : α → β) (h : o.isSome) :
    (o.map f).isSome := by
  cases o
  · cases h
  · rfl

theorem snd_mem_of_mem_enum {l : List α} {pr : Nat × α}
    (h : pr ∈ l.enum) : pr.2 ∈ l := by
  rcases List.mem_iff_getElem?.mp h with ⟨i, hi⟩
  rw [enum_getElem? l i] at hi
  cases hx : l[i]? with
  | none => rw [hx] at hi; cases hi
  | some x =>
    rw [hx] at hi
    have hpr : (i, x) = pr := Option.some.inj hi
    rw [← hpr]
    rcases List.getElem?_eq_some.mp hx with ⟨hlt, hget⟩
    rw [← hget]
    exact List.getElem_mem hlt

/-- C8: an operand whose normalized list form is empty makes a
broadcasting operator fail, and it is the only operand-length condition
that fails — a bare scalar, any nonempty bundle and any nonempty scalar
list are always accepted, whatever the length mismatch. -/
theorem spec_c8 (a : Pyo) (ha : a.baseObjs ≠ []) :
    pyoAdd a (.list []) = none ∧
    (∀ q : Rat, (pyoAdd a (.scalar q)).isSome) ∧
    (∀ b : Pyo, b.baseObjs ≠ [] → (pyoAdd a (.pyo b)).isSome) ∧
    (∀ l : List Rat, l ≠ [] →
      (pyoAdd a (.list (l.map .scalar))).isSome) := by
  have halen : 0 < a.baseObjs.length := List.length_pos.mpr ha
  refine ⟨?_, ?_, ?_, ?_⟩
  · rw [pyoAdd_if_aligned a (.list [])
      (by simp [opLenN, convertArg])]
    rw [listOptM_eq_none (x := 0) _ (List.mem_range.mpr halen) rfl]
    rfl
  · intro q
    rw [pyoAdd_if_aligned a (.scalar q)
      (by simpa [opLenN, convertArg] using halen)]
    have := listOptM_isSome
      (fun i => (wrapO (normOp (Operand.scalar q)) (i / a.opDup)).map
        (fun w => AStream.addS (a.baseObjs.getD i (.num 0)) w))
      (List.range a.baseObjs.length)
      (fun i _ => by
        show ((wrapO (Operand.list [.scalar q]) (i / a.opDup)).map _).isSome
        simp [wrapO, Nat.mod_one])
    exact isSome_map_of mkDummy this
  · intro b hb
    by_cases hle : b.baseObjs.length ≤ a.baseObjs.length
    · rw [pyoAdd_pyo_aligned a b hb hle]
      rfl
    · rw [pyoAdd_delegate a b (by simpa [opLenN, convertArg] using hle)]
      rw [pyoAdd_pyo_aligned b a ha (Nat.le_of_lt (Nat.lt_of_not_le hle))]
      rfl
  · intro l hl
    have hlen : 0 < l.length := List.length_pos.mpr hl
    by_cases hle : l.length ≤ a.baseObjs.length
    · rw [pyoAdd_if_aligned a (.list (l.map .scalar))
        (by simpa [opLenN, convertArg] using hle)]
      apply isSome_map_of mkDummy
      apply listOptM_isSome
      intro i _
      have hm : (i / a.opDup) % l.length < l.length := Nat.mod_lt _ hlen
      show ((wrapO (Operand.list (l.map .scalar)) (i / a.opDup)).map _).isSome
      rw [show wrapO (Operand.list (l.map .scalar)) (i / a.opDup) =
          (match (l.map OpElem.scalar)[(i / a.opDup) %
              (l.map OpElem.scalar).length]? with
            | some (.scalar q) => some (AStream.num q)
            | some (.pyo p) => p.baseObjs[0]?
            | none => none) from rfl]
      rw [List.getElem?_map]
      rw [List.length_map]
      rw [getElem?_eq_some_getD 0 hm]
      rfl
    · rw [pyoAdd_list_longer a (l.map .scalar)
        (by simpa [opLenN, convertArg] using hle)]
      apply isSome_map_of mkDummy
      apply listOptM_isSome
      intro pr hpr
      have hsnd := snd_mem_of_mem_enum hpr
      rcases List.mem_map.mp hsnd with ⟨q, _, hq⟩
      have hw : wrapB a.baseObjs pr.1 =
          some (a.baseObjs.getD (pr.1 % a.baseObjs.length) (.num 0)) := by
        unfold wrapB
        exact getElem?_eq_some_getD _ (Nat.mod_lt _ halen)
      rw [hw, ← hq]
      rfl

/-- Witness for C8: a two-stream bundle against the empty list, a
scalar, a three-stream bundle and a one-element scalar list. -/
theorem spec_c8_witness :
    (Pyo.mk [.leaf 0, .leaf 1] 1 none).baseObjs ≠ [] ∧
    (pyoAdd (Pyo.mk [.leaf 0, .leaf 1] 1 none) (.list []) = none ∧
     (∀ q : Rat,
       (pyoAdd (Pyo.mk [.leaf 0, .leaf 1] 1 none) (.scalar q)).isSome) ∧
     (∀ b : Pyo, b.baseObjs ≠ [] →
       (pyoAdd (Pyo.mk [.leaf 0, .leaf 1] 1 none) (.pyo b)).isSome) ∧
     (∀ l : List Rat, l ≠ [] →
       (pyoAdd (Pyo.mk [.leaf 0, .leaf 1] 1 none)
         (.list (l.map .scalar))).isSome)) :=
  ⟨by decide, spec_c8 (Pyo.mk [.leaf 0, .leaf 1] 1 none) (by decide)⟩

theorem getD_map (l : List α) (f : α → β) (i : Nat) (d : β) (d' : α)
    (h : i < l.length) : (l.map f).getD i d = f (l.getD i d') := by
  rw [List.getD_eq_getElem _ _ (by simpa using h), List.getElem_map,
    List.getD_eq_getElem _ _ h]

theorem pyoSub_sigZero (z : Nat) (p : Pyo) (hp : p.baseObjs ≠ []) :
    pyoSub (sigZero z) (.pyo p) =
      some (mkDummy (p.baseObjs.map
        (fun s => AStream.subS (.sigS z 0) s))) := by
  obtain ⟨bo, od, zz⟩ := p
  have hbo : bo ≠ [] := hp
  have hlen : 0 < bo.length := List.length_pos.mpr hbo
  by_cases hle : bo.length ≤ 1
  · have h1 : bo.length = 1 := Nat.le_antisymm hle hlen
    obtain ⟨p0, hp0⟩ := List.length_eq_one.mp h1
    subst hp0
    unfold pyoSub
    rw [if_pos (show opLenN (Operand.pyo ⟨[p0], od, zz⟩) ≤
      (sigZero z).baseObjs.length from Nat.le_refl 1)]
    show (listOptM
        (fun i => (wrapO (normOp (Operand.pyo ⟨[p0], od, zz⟩))
            (i / (sigZero z).opDup)).map
          (fun w => AStream.subS ((sigZero z).baseObjs.getD i (.num 0)) w))
        [0]).map mkDummy =
      some (mkDummy [AStream.subS (.sigS z 0) p0])
    rw [listOptM_eq_map _ (fun _ : Nat => AStream.subS (.sigS z 0) p0) _ ?_]
    · rfl
    · intro i hi
      have hi0 : i = 0 := by simpa using hi
      subst hi0
      rw [Nat.zero_div]
      rfl
  · unfold pyoSub
    rw [if_neg (by simpa [opLenN, convertArg] using hle)]
    show (listOptM
        (fun i =>
          match wrapB (sigZero z).baseObjs i,
            wrapO (Operand.pyo ⟨bo, od, zz⟩) i with
          | some u, some w => some (AStream.subS u w)
          | _, _ => none)
        (List.range bo.length)).map mkDummy =
      some (mkDummy (bo.map (fun s => AStream.subS (.sigS z 0) s)))
    rw [listOptM_eq_map _
      (fun i => AStream.subS (.sigS z 0) (bo.getD i (.num 0))) _ ?_]
    · rw [show (List.range bo.length).map
          (fun i => AStream.subS (.sigS z 0) (bo.getD i (.num 0))) =
          bo.map (fun s => AStream.subS (.sigS z 0) s) from
        range_map_getD bo (.num 0) (fun s => AStream.subS (.sigS z 0) s)]
      rfl
    · intro i hi
      have hilt : i < bo.length := List.mem_range.mp hi
      show (match wrapB (sigZero z).baseObjs i,
          wrapO (Operand.pyo ⟨bo, od, zz⟩) i with
        | some u, some w => some (AStream.subS u w)
        | _, _ => none) = _
      rw [show wrapB (sigZero z).baseObjs i = some (.sigS z 0) by
        simp [wrapB, sigZero, Nat.mod_one]]
      rw [show wrapO (Operand.pyo ⟨bo, od, zz⟩) i =
        bo[i % bo.length]? from rfl]
      rw [Nat.mod_eq_of_lt hilt, getElem?_eq_some_getD (AStream.num 0) hilt]

/-- C6: `-A` is built as `Z - A` where `Z` is a zero-valued one-stream
`Sig` bundle allocated on `A`'s first negation and memoized in
`A._zeros` (reused without reallocation on every later negation of
`A`), and `-(-A)` is pointwise equal to `A`. -/
theorem spec_c6 (a : Pyo) (fresh : Nat) (ha : a.baseObjs ≠ [])
    (hz : a.zerosId = none) :
    ∃ d1 : Pyo,
      negP a fresh = (some d1, { a with zerosId := some fresh }, fresh + 1) ∧
      d1.baseObjs = a.baseObjs.map (fun s => .subS (.sigS fresh 0) s) ∧
      (∀ g, negP { a with zerosId := some fresh } g =
        (some d1, { a with zerosId := some fresh }, g)) ∧
      (∀ g, ∃ d2 : Pyo, (negP d1 g).1 = some d2 ∧
        ∀ i env, evalS env (d2.baseObjs.getD i (.num 0)) =
          evalS env (a.baseObjs.getD i (.num 0))) := by
  have ha' : ({ a with zerosId := some fresh } : Pyo).baseObjs ≠ [] := ha
  have hsub : pyoSub (sigZero fresh) (.pyo { a with zerosId := some fresh }) =
      some (mkDummy (a.baseObjs.map
        (fun s => AStream.subS (.sigS fresh 0) s))) :=
    pyoSub_sigZero fresh { a with zerosId := some fresh } ha'
  refine ⟨mkDummy (a.baseObjs.map (fun s => .subS (.sigS fresh 0) s)),
    ?_, rfl, ?_, ?_⟩
  · show (match a.zerosId with
      | some z => (pyoSub (sigZero z) (.pyo a), a, fresh)
      | none =>
        (pyoSub (sigZero fresh)
            (.pyo { a with zerosId := some fresh }),
          { a with zerosId := some fresh }, fresh + 1)) =
      (some (mkDummy (a.baseObjs.map
          (fun s => AStream.subS (.sigS fresh 0) s))),
        { a with zerosId := some fresh }, fresh + 1)
    rw [hz, hsub]
  · intro g
    show (pyoSub (sigZero fresh) (.pyo { a with zerosId := some fresh }),
        { a with zerosId := some fresh }, g) =
      (some (mkDummy (a.baseObjs.map
          (fun s => AStream.subS (.sigS fresh 0) s))),
        { a with zerosId := some fresh }, g)
    rw [hsub]
  · intro g
    have hne : (a.baseObjs.map
        (fun s => AStream.subS (.sigS fresh 0) s)) ≠ [] := by
      intro hcon
      exact ha (List.map_eq_nil_iff.mp hcon)
    have hsub2 : pyoSub (sigZero g)
        (.pyo ⟨a.baseObjs.map (fun s => AStream.subS (.sigS fresh 0) s),
          1, some g⟩) =
        some (mkDummy ((a.baseObjs.map
            (fun s => AStream.subS (.sigS fresh 0) s)).map
          (fun s => AStream.subS (.sigS g 0) s))) :=
      pyoSub_sigZero g _ hne
    refine ⟨mkDummy ((a.baseObjs.map
        (fun s => AStream.subS (.sigS fresh 0) s)).map
        (fun s => AStream.subS (.sigS g 0) s)), ?_, ?_⟩
    · show pyoSub (sigZero g)
        (.pyo ⟨a.baseObjs.map (fun s => AStream.subS (.sigS fresh 0) s),
          1, some g⟩) = _
      exact hsub2
    · intro i env
      show evalS env (((a.baseObjs.map
          (fun s => AStream.subS (.sigS fresh 0) s)).map
          (fun s => AStream.subS (.sigS g 0) s)).getD i (.num 0)) =
        evalS env (a.baseObjs.getD i (.num 0))
      by_cases hi : i < a.baseObjs.length
      · rw [getD_map _ _ _ _ (AStream.num 0) (by simpa using hi)]
        rw [getD_map _ _ _ _ (AStream.num 0) hi]
        simp only [evalS]
        ring
      · have hge : a.baseObjs.length ≤ i := Nat.le_of_not_lt hi
        rw [List.getD_eq_default _ _ (by simpa using hge)]
        rw [List.getD_eq_default _ _ hge]

/-- Witness for C6: first and repeated negation of a two-stream bundle. -/
theorem spec_c6_witness :
    (Pyo.mk [.leaf 0, .leaf 1] 1 none).baseObjs ≠ [] ∧
    (Pyo.mk [.leaf 0, .leaf 1] 1 none).zerosId = none ∧
    (∃ d1 : Pyo,
      negP (Pyo.mk [.leaf 0, .leaf 1] 1 none) 5 =
        (some d1,
          { Pyo.mk [.leaf 0, .leaf 1] 1 none with zerosId := some 5 },
          5 + 1) ∧
      d1.baseObjs = (Pyo.mk [.leaf 0, .leaf 1] 1 none).baseObjs.map
        (fun s => .subS (.sigS 5 0) s) ∧
      (∀ g, negP { Pyo.mk [.leaf 0, .leaf 1] 1 none with
          zerosId := some 5 } g =
        (some d1,
          { Pyo.mk [.leaf 0, .leaf 1] 1 none with zerosId := some 5 }, g)) ∧
      (∀ g, ∃ d2 : Pyo, (negP d1 g).1 = some d2 ∧
        ∀ i env, evalS env (d2.baseObjs.getD i (.num 0)) =
          evalS env ((Pyo.mk [.leaf 0, .leaf 1] 1 none).baseObjs.getD i
            (.num 0)))) :=
  ⟨by decide, rfl,
    spec_c6 (Pyo.mk [.leaf 0, .leaf 1] 1 none) 5 (by decide) rfl⟩

theorem mixAssign_zero (objs : List AStream) (v : Nat) :
    mixAssign objs v 0 = List.replicate v [] := rfl

theorem mixAssign_succ (objs : List AStream) (v n : Nat) :
    mixAssign objs v (n + 1) =
      listModify (fun sub => sub ++ [objs.getD (n % objs.length) (.num 0)])
        (n % v) (mixAssign objs v n) := by
  unfold mixAssign
  rw [List.range_succ, List.foldl_append]
  rfl

theorem length_mixAssign (objs : List AStream) (v n : Nat) :
    (mixAssign objs v n).length = v := by
  induction n with
  | zero => rw [mixAssign_zero, List.length_replicate]
  | succ m ih => rw [mixAssign_succ, length_listModify, ih]

theorem mixAssign_getElem? (objs : List AStream) (v n k : Nat) :
    (mixAssign objs v n)[k]? =
      if k < v then
        some (((List.range n).filter (fun i => i % v = k)).map
          (fun i => objs.getD (i % objs.length) (.num 0)))
      else none := by
  induction n with
  | zero =>
    rw [mixAssign_zero, List.getElem?_replicate]
    by_cases hkv : k < v
    · simp [hkv]
    · simp [hkv]
  | succ m ih =>
    rw [mixAssign_succ, getElem?_listModify, ih, List.range_succ,
      List.filter_append, List.map_append]
    by_cases hkv : k < v
    · by_cases hmk : m % v = k
      · simp [hkv, hmk]
      · simp [hkv, hmk]
    · by_cases hmk : m % v = k
      · simp [hkv, hmk]
      · simp [hkv, hmk]

theorem mixNum_pos (len : Nat) (voices : Int) (hlen : 1 ≤ len)
    (hv : 1 ≤ voices) :
    mixNum len voices 1 =
      (voices, if (len : Int) < voices then voices.toNat else len) := by
  unfold mixNum
  rw [if_neg (by omega)]
  by_cases hgt : voices > (len : Int)
  · rw [if_pos ⟨hgt, by omega⟩, if_pos (by omega)]
  · rw [if_neg (fun hcon => hgt hcon.1), if_neg (by omega),
      if_neg (by omega)]

/-- C4 (amended): with default scalar `mul`/`add` (`lmax = 1`), `Mix`
distributes input streams round-robin — `num = input_len` unless
`voices > input_len` (then `num = voices`), the result has exactly
`voices` output streams, and input stream `i` (wrapped modulo
`input_len`) is summed into output voice `i mod voices`; five input
streams into two voices give exactly the sums {0,2,4} and {1,3}.
However, `voices < 1` is clamped to one voice with `num = 1`, so only
the first input stream is summed into the single output voice (the
iteration count is *not* `input_len` there). -/
theorem spec_c4 (objs : List AStream) (voices : Int) (h0 : objs ≠ []) :
    (voices < 1 →
      mixNum objs.length voices 1 = (1, 1) ∧
      mixInit objs voices 1 = [[objs.getD 0 (.num 0)]]) ∧
    (1 ≤ voices →
      (mixNum objs.length voices 1).1 = voices ∧
      (mixNum objs.length voices 1).2 =
        (if (objs.length : Int) < voices then voices.toNat
          else objs.length) ∧
      (mixInit objs voices 1).length = voices.toNat ∧
      (∀ k, k < voices.toNat →
        (mixInit objs voices 1)[k]? =
          some (((List.range (mixNum objs.length voices 1).2).filter
              (fun i => i % voices.toNat = k)).map
            (fun i => objs.getD (i % objs.length) (.num 0))))) ∧
    mixInit [.leaf 0, .leaf 1, .leaf 2, .leaf 3, .leaf 4] 2 1 =
      [[.leaf 0, .leaf 2, .leaf 4], [.leaf 1, .leaf 3]] := by
  have hlen : 1 ≤ objs.length := List.length_pos.mpr h0
  refine ⟨?_, ?_, by decide⟩
  · intro hv
    have hmn : mixNum objs.length voices 1 = (1, 1) := by
      unfold mixNum
      rw [if_pos hv]
    refine ⟨hmn, ?_⟩
    unfold mixInit
    rw [hmn]
    show mixAssign objs 1 1 = _
    rw [mixAssign_succ, mixAssign_zero]
    show listModify _ (0 % 1) [[]] = _
    rw [Nat.zero_mod]
    show [([] : List AStream) ++ [objs.getD (0 % objs.length) (.num 0)]] = _
    rw [Nat.zero_mod]
    rfl
  · intro hv
    have hmn := mixNum_pos objs.length voices hlen hv
    refine ⟨by rw [hmn], by rw [hmn], ?_, ?_⟩
    · unfold mixInit
      rw [hmn, length_mixAssign]
    · intro k hk
      unfold mixInit
      rw [hmn]
      show (mixAssign objs voices.toNat _)[k]? = _
      rw [mixAssign_getElem?, if_pos hk]

/-- Witness for C4 (amended) at three input streams and two voices. -/
theorem spec_c4_witness :
    ([AStream.leaf 7, .leaf 8, .leaf 9] ≠ ([] : List AStream)) ∧
    (((2 : Int) < 1 →
      mixNum 3 2 1 = (1, 1) ∧
      mixInit [AStream.leaf 7, .leaf 8, .leaf 9] 2 1 =
        [[([AStream.leaf 7, .leaf 8, .leaf 9]).getD 0 (.num 0)]]) ∧
    ((1 : Int) ≤ 2 →
      (mixNum 3 2 1).1 = 2 ∧
      (mixNum 3 2 1).2 = (if (3 : Int) < 2 then (2 : Int).toNat else 3) ∧
      (mixInit [AStream.leaf 7, .leaf 8, .leaf 9] 2 1).length =
        (2 : Int).toNat ∧
      (∀ k, k < (2 : Int).toNat →
        (mixInit [AStream.leaf 7, .leaf 8, .leaf 9] 2 1)[k]? =
          some (((List.range (mixNum 3 2 1).2).filter
              (fun i => i % (2 : Int).toNat = k)).map
            (fun i => ([AStream.leaf 7, .leaf 8, .leaf 9]).getD
              (i % 3) (.num 0))))) ∧
    mixInit [.leaf 0, .leaf 1, .leaf 2, .leaf 3, .leaf 4] 2 1 =
      [[.leaf 0, .leaf 2, .leaf 4], [.leaf 1, .leaf 3]]) :=
  ⟨by decide, spec_c4 [AStream.leaf 7, .leaf 8, .leaf 9] 2 (by decide)⟩

/-- Counterexample for C4 as stated: with `input_len = 2` and
`voices = 0` (clamped to 1), the code iterates `num = 1` times, not
`input_len = 2`, so the single output voice sums only input stream 0,
not streams {0, 1} as the claim predicts. -/
theorem spec_c4_cx :
    mixNum 2 0 1 = (1, 1) ∧
    mixInit [.leaf 0, .leaf 1] 0 1 = [[.leaf 0]] ∧
    mixInit [.leaf 0, .leaf 1] 0 1 ≠ [[.leaf 0, .leaf 1]] ∧
    (mixNum 2 0 1).2 ≠ 2 := by
  exact ⟨by decide, by decide, by decide, by decide⟩

theorem length_stopVP (vps : List VP) (vid : Nat) :
    (stopVP vps vid).length = vps.length :=
  length_listModify _ _ _

theorem getElem?_stopVP (vps : List VP) (vid k : Nat) :
    (stopVP vps vid)[k]? =
      if vid = k then (vps[k]?).map (fun v => { v with vplaying := false })
      else vps[k]? :=
  getElem?_listModify _ _ _ _

/-- `op` never registers callback `c`. -/
def opAvoids (op : ROp) (c : Nat) : Prop :=
  match op with
  | .setA _ _ (some c') => c' ≠ c
  | _ => True

theorem cbsOf_cons_set (v p : Rat) (c' : Nat) (rest : List ROp) :
    cbsOf (ROp.setA v p (some c') :: rest) = c' :: cbsOf rest := rfl

theorem cbsOf_cons_adv (dt : Rat) (rest : List ROp) :
    cbsOf (ROp.adv dt :: rest) = cbsOf rest := rfl

theorem cbsOf_cons_none (v p : Rat) (rest : List ROp) :
    cbsOf (ROp.setA v p none :: rest) = cbsOf rest := rfl

theorem setOp_invoked (s : RampSys) (v p : Rat) (cb : Option Nat)
    (s' : RampSys) (h : setOp s v p cb = some s') :
    s'.invoked = s.invoked ∧ s'.callbackD = some cb := by
  unfold setOp at h
  cases hsd : s.signalD with
  | none =>
    simp only [hsd] at h
    cases hav : s.attrVal with
    | numA q =>
      simp only [hav, Option.map_some', Option.some.injEq] at h
      subst h
      exact ⟨rfl, rfl⟩
    | rampA vid =>
      simp only [hav, Option.map_none'] at h
      cases h
  | some vid =>
    simp only [hsd] at h
    cases hvp : s.vps[vid]? with
    | none =>
      simp only [hvp] at h
      cases hav : s.attrVal with
      | numA q =>
        simp only [hav, Option.map_some', Option.some.injEq] at h
        subst h
        exact ⟨rfl, rfl⟩
      | rampA vid' =>
        simp only [hav, Option.map_none'] at h
        cases h
    | some vp =>
      simp only [hvp] at h
      by_cases hpl : vp.vplaying = true
      · rw [if_pos hpl] at h
        simp only [Option.some.injEq] at h
        subst h
        exact ⟨rfl, rfl⟩
      · rw [if_neg hpl] at h
        cases hav : s.attrVal with
        | numA q =>
          simp only [hav, Option.map_some', Option.some.injEq] at h
          subst h
          exact ⟨rfl, rfl⟩
        | rampA vid' =>
          simp only [hav, Option.map_none'] at h
          cases h

theorem resetFromSet_step (s s' : RampSys) (c : Nat)
    (h : resetFromSet s = some s') (hcb : s.callbackD ≠ some (some c))
    (hinv : c ∉ s.invoked) :
    c ∉ s'.invoked ∧ s'.callbackD ≠ some (some c) := by
  unfold resetFromSet at h
  cases hav : s.attrVal with
  | numA q =>
    simp only [hav] at h
    cases hsd : s.signalD with
    | none =>
      simp only [hsd] at h
      cases h
    | some vid =>
      simp only [hsd, Option.some.injEq] at h
      subst h
      exact ⟨hinv, hcb⟩
  | rampA vid0 =>
    simp only [hav] at h
    cases htd : s.targetD with
    | none =>
      simp only [htd] at h
      cases h
    | some t =>
      simp only [htd] at h
      cases hcd : s.callbackD with
      | none =>
        simp only [hcd] at h
        cases h
      | some cbv =>
        cases cbv with
        | none =>
          simp only [hcd] at h
          cases hsd : s.signalD with
          | none =>
            simp only [hsd] at h
            cases h
          | some vid =>
            simp only [hsd, Option.some.injEq] at h
            subst h
            exact ⟨hinv, by simp⟩
        | some c' =>
          simp only [hcd] at h
          cases hsd : s.signalD with
          | none =>
            simp only [hsd] at h
            cases h
          | some vid =>
            simp only [hsd, Option.some.injEq] at h
            subst h
            have hc' : c' ≠ c := by
              intro hcon
              exact hcb (by rw [hcd, hcon])
            constructor
            · intro hcon
              rcases List.mem_append.mp hcon with hmem | hmem
              · exact hinv hmem
              · exact hc' (List.mem_singleton.mp hmem).symm
            · intro hcon
              cases hcon

theorem stepR_not_invoked (s s' : RampSys) (op : ROp) (c : Nat)
    (h : stepR s op = some s')
    (hinv : c ∉ s.invoked) (hcb : s.callbackD ≠ some (some c))
    (hop : opAvoids op c) :
    c ∉ s'.invoked ∧ s'.callbackD ≠ some (some c) := by
  cases op with
  | adv dt =>
    have h2 : advance dt s = some s' := h
    unfold advance at h2
    by_cases hany : ((s.vps.map (bumpVP dt)).any
        (fun v => v.vplaying && decide (v.vdur ≤ v.velapsed))) = true
    · rw [if_pos hany] at h2
      exact resetFromSet_step _ _ c h2 hcb hinv
    · rw [if_neg hany] at h2
      have h' := Option.some.inj h2
      subst h'
      exact ⟨hinv, hcb⟩
  | setA v p cb =>
    have hs := setOp_invoked s v p cb s' h
    refine ⟨by rw [hs.1]; exact hinv, ?_⟩
    rw [hs.2]
    intro hcon
    have hcb' : cb = some c := Option.some.inj hcon
    cases cb with
    | none => cases hcb'
    | some c' =>
      exact hop (Option.some.inj hcb')

theorem runR_not_invoked (c : Nat) (ops : List ROp) :
    ∀ (s s'' : RampSys), runR s ops = some s'' → c ∉ s.invoked →
      s.callbackD ≠ some (some c) → c ∉ cbsOf ops →
      c ∉ s''.invoked := by
  induction ops with
  | nil =>
    intro s s'' h hinv _ _
    cases h
    exact hinv
  | cons op rest ih =>
    intro s s'' h hinv hcb hops
    unfold runR at h
    cases hst : stepR s op with
    | none => rw [hst] at h; cases h
    | some s1 =>
      rw [hst] at h
      have hsplit : opAvoids op c ∧ c ∉ cbsOf rest := by
        cases op with
        | adv dt =>
          rw [cbsOf_cons_adv] at hops
          exact ⟨trivial, hops⟩
        | setA v p cb =>
          cases cb with
          | none =>
            rw [cbsOf_cons_none] at hops
            exact ⟨trivial, hops⟩
          | some c' =>
            rw [cbsOf_cons_set] at hops
            refine ⟨?_, fun hcon => hops (List.mem_cons_of_mem c' hcon)⟩
            intro hcon
            exact hops (hcon ▸ List.mem_cons_self c' (cbsOf rest))
      have hpres := stepR_not_invoked s s1 op c hst hinv hcb hsplit.1
      exact ih s1 s'' h hpres.1 hpres.2 hsplit.2

theorem setOp_active (s : RampSys) (vid : Nat) (vp : VP) (v p : Rat)
    (cb : Option Nat) (h1 : s.signalD = some vid)
    (h2 : s.vps[vid]? = some vp) (h3 : vp.vplaying = true) :
    setOp s v p cb = some
      { attrVal := .rampA s.vps.length, targetD := some v,
        callbackD := some cb, signalD := some s.vps.length,
        vps := stopVP s.vps vid ++ [⟨v, p, vpValue vp, 0, true⟩],
        invoked := s.invoked } := by
  unfold setOp
  simp only [h1, h2]
  rw [if_pos h3, length_stopVP]

/-- C2: a `set()` call that supersedes a still-playing ramp samples that
ramp's currently interpolated value as the new ramp's origin, stops the
superseded ramp immediately, and the superseded call's callback is never
invoked by any later engine activity or `set()` call that does not
re-register it. -/
theorem spec_c2 (s s' s'' : RampSys) (vid : Nat) (vp : VP) (v p : Rat)
    (cb : Option Nat) (oldCb : Nat) (ops : List ROp)
    (h1 : s.signalD = some vid) (h2 : s.vps[vid]? = some vp)
    (h3 : vp.vplaying = true) (_h4 : s.callbackD = some (some oldCb))
    (h5 : oldCb ∉ s.invoked) (h6 : cb ≠ some oldCb)
    (h7 : setOp s v p cb = some s') (h8 : oldCb ∉ cbsOf ops)
    (h9 : runR s' ops = some s'') :
    s'.signalD = some s.vps.length ∧
    s'.vps[s.vps.length]? = some ⟨v, p, vpValue vp, 0, true⟩ ∧
    s'.vps[vid]? = some { vp with vplaying := false } ∧
    oldCb ∉ s''.invoked := by
  rw [setOp_active s vid vp v p cb h1 h2 h3] at h7
  have h7' := Option.some.inj h7
  have hvlt : vid < s.vps.length := by
    by_contra hcon
    rw [List.getElem?_eq_none (Nat.le_of_not_lt hcon)] at h2
    cases h2
  subst h7'
  refine ⟨rfl, ?_, ?_, ?_⟩
  · show (stopVP s.vps vid ++ [⟨v, p, vpValue vp, 0, true⟩])[s.vps.length]? = _
    rw [List.getElem?_append_right (by simp [length_stopVP]),
      length_stopVP, Nat.sub_self]
    rfl
  · show (stopVP s.vps vid ++ [⟨v, p, vpValue vp, 0, true⟩])[vid]? = _
    rw [List.getElem?_append,
      if_pos (show vid < (stopVP s.vps vid).length by
        rw [length_stopVP]; exact hvlt),
      getElem?_stopVP, if_pos rfl, h2]
    rfl
  · refine runR_not_invoked oldCb ops _ s'' h9 h5 ?_ h8
    show some cb ≠ some (some oldCb)
    intro hcon
    exact h6 (Option.some.inj hcon)

/-- C3: when a ramp completes naturally while the attribute still holds
the ramp object, the attribute is snapped to the literal target recorded
at `set()` time, a registered non-`None` callback is invoked exactly
once and cleared from the callback dictionary, the ramp signal is
stopped, and a repeated invocation of the completion handler does not
invoke the callback again. -/
theorem spec_c3 (s s1 s2 : RampSys) (vid : Nat) (vp : VP) (t : Rat)
    (c : Nat)
    (h1 : s.attrVal = .rampA vid) (h2 : s.signalD = some vid)
    (h3 : s.vps[vid]? = some vp) (h4 : s.targetD = some t)
    (h5 : s.callbackD = some (some c))
    (h6 : resetFromSet s = some s1) (h7 : resetFromSet s1 = some s2) :
    s1.attrVal = .numA t ∧
    s1.invoked = s.invoked ++ [c] ∧
    s1.callbackD = none ∧
    s1.vps[vid]? = some { vp with vplaying := false } ∧
    s2.invoked = s1.invoked ∧
    s2.attrVal = s1.attrVal := by
  have hx : resetFromSet s = some
      { attrVal := .numA t, targetD := s.targetD, callbackD := none,
        signalD := s.signalD, vps := stopVP s.vps vid,
        invoked := s.invoked ++ [c] } := by
    unfold resetFromSet
    simp only [h1, h4, h5, h2]
  rw [hx] at h6
  have h6' := Option.some.inj h6
  subst h6'
  have hy : resetFromSet
      { attrVal := .numA t, targetD := s.targetD, callbackD := none,
        signalD := s.signalD, vps := stopVP s.vps vid,
        invoked := s.invoked ++ [c] } = some
      { attrVal := .numA t, targetD := s.targetD, callbackD := none,
        signalD := s.signalD, vps := stopVP (stopVP s.vps vid) vid,
        invoked := s.invoked ++ [c] } := by
    unfold resetFromSet
    simp only [h2]
  rw [hy] at h7
  have h7' := Option.some.inj h7
  subst h7'
  refine ⟨rfl, rfl, rfl, ?_, rfl, rfl⟩
  show (stopVP s.vps vid)[vid]? = _
  rw [getElem?_stopVP, if_pos rfl, h3]
  rfl

/-- Witness for C2: a ramp from 0 to 10 over 2 seconds, superseded
halfway (its interpolated value is then 5) by a ramp to 0 with a new
callback; one engine second later the new ramp completes and only the
new callback has ever been invoked. -/
theorem spec_c2_witness :
    (setOp ⟨.rampA 0, some 10, some (some 7), some 0,
        [⟨10, 2, 0, 1, true⟩], []⟩ 0 1 (some 8) = some
      ⟨.rampA 1, some 0, some (some 8), some 1,
        [⟨10, 2, 0, 1, false⟩, ⟨0, 1, 5, 0, true⟩], []⟩) ∧
    (runR ⟨.rampA 1, some 0, some (some 8), some 1,
        [⟨10, 2, 0, 1, false⟩, ⟨0, 1, 5, 0, true⟩], []⟩ [.adv 1] = some
      ⟨.numA 0, some 0, none, some 1,
        [⟨10, 2, 0, 1, false⟩, ⟨0, 1, 5, 1, false⟩], [8]⟩) ∧
    ((⟨.rampA 1, some 0, some (some 8), some 1,
        [⟨10, 2, 0, 1, false⟩, ⟨0, 1, 5, 0, true⟩], []⟩ :
          RampSys).signalD = some 1 ∧
      (⟨.rampA 1, some 0, some (some 8), some 1,
        [⟨10, 2, 0, 1, false⟩, ⟨0, 1, 5, 0, true⟩], []⟩ :
          RampSys).vps[(1 : Nat)]? =
        some ⟨0, 1, vpValue ⟨10, 2, 0, 1, true⟩, 0, true⟩ ∧
      (⟨.rampA 1, some 0, some (some 8), some 1,
        [⟨10, 2, 0, 1, false⟩, ⟨0, 1, 5, 0, true⟩], []⟩ :
          RampSys).vps[(0 : Nat)]? = some ⟨10, 2, 0, 1, false⟩ ∧
      7 ∉ (⟨.numA 0, some 0, none, some 1,
        [⟨10, 2, 0, 1, false⟩, ⟨0, 1, 5, 1, false⟩], [8]⟩ :
          RampSys).invoked) := by
  have h7 : setOp ⟨.rampA 0, some 10, some (some 7), some 0,
      [⟨10, 2, 0, 1, true⟩], []⟩ 0 1 (some 8) = some
      ⟨.rampA 1, some 0, some (some 8), some 1,
        [⟨10, 2, 0, 1, false⟩, ⟨0, 1, 5, 0, true⟩], []⟩ := by
    rw [setOp_active ⟨.rampA 0, some 10, some (some 7), some 0,
      [⟨10, 2, 0, 1, true⟩], []⟩ 0 ⟨10, 2, 0, 1, true⟩ 0 1 (some 8)
      rfl rfl rfl]
    norm_num [vpValue, stopVP, listModify]
  have h9 : runR ⟨.rampA 1, some 0, some (some 8), some 1,
      [⟨10, 2, 0, 1, false⟩, ⟨0, 1, 5, 0, true⟩], []⟩ [.adv 1] = some
      ⟨.numA 0, some 0, none, some 1,
        [⟨10, 2, 0, 1, false⟩, ⟨0, 1, 5, 1, false⟩], [8]⟩ := by
    norm_num [runR, stepR, advance, bumpVP, resetFromSet, stopVP,
      listModify]
  exact ⟨h7, h9,
    spec_c2 ⟨.rampA 0, some 10, some (some 7), some 0,
        [⟨10, 2, 0, 1, true⟩], []⟩
      ⟨.rampA 1, some 0, some (some 8), some 1,
        [⟨10, 2, 0, 1, false⟩, ⟨0, 1, 5, 0, true⟩], []⟩
      ⟨.numA 0, some 0, none, some 1,
        [⟨10, 2, 0, 1, false⟩, ⟨0, 1, 5, 1, false⟩], [8]⟩
      0 ⟨10, 2, 0, 1, true⟩ 0 1 (some 8) 7 [.adv 1]
      rfl rfl rfl rfl (List.not_mem_nil 7) (by simp) h7
      (List.not_mem_nil 7) h9⟩

/-- Witness for C3: a completed ramp (elapsed = duration = 2 seconds,
still referenced by the attribute) whose completion handler runs twice;
callback 3 is invoked exactly once. -/
theorem spec_c3_witness :
    (resetFromSet ⟨.rampA 0, some 10, some (some 3), some 0,
        [⟨10, 2, 0, 2, true⟩], []⟩ = some
      ⟨.numA 10, some 10, none, some 0, [⟨10, 2, 0, 2, false⟩], [3]⟩) ∧
    (resetFromSet ⟨.numA 10, some 10, none, some 0,
        [⟨10, 2, 0, 2, false⟩], [3]⟩ = some
      ⟨.numA 10, some 10, none, some 0, [⟨10, 2, 0, 2, false⟩], [3]⟩) ∧
    ((⟨.numA 10, some 10, none, some 0, [⟨10, 2, 0, 2, false⟩], [3]⟩ :
        RampSys).attrVal = .numA 10 ∧
      (⟨.numA 10, some 10, none, some 0, [⟨10, 2, 0, 2, false⟩], [3]⟩ :
        RampSys).invoked = [] ++ [3] ∧
      (⟨.numA 10, some 10, none, some 0, [⟨10, 2, 0, 2, false⟩], [3]⟩ :
        RampSys).callbackD = none ∧
      (⟨.numA 10, some 10, none, some 0, [⟨10, 2, 0, 2, false⟩], [3]⟩ :
        RampSys).vps[(0 : Nat)]? = some ⟨10, 2, 0, 2, false⟩ ∧
      (⟨.numA 10, some 10, none, some 0, [⟨10, 2, 0, 2, false⟩], [3]⟩ :
        RampSys).invoked =
        (⟨.numA 10, some 10, none, some 0, [⟨10, 2, 0, 2, false⟩], [3]⟩ :
          RampSys).invoked ∧
      (⟨.numA 10, some 10, none, some 0, [⟨10, 2, 0, 2, false⟩], [3]⟩ :
        RampSys).attrVal =
        (⟨.numA 10, some 10, none, some 0, [⟨10, 2, 0, 2, false⟩], [3]⟩ :
          RampSys).attrVal) := by
  have h6 : resetFromSet ⟨.rampA 0, some 10, some (some 3), some 0,
      [⟨10, 2, 0, 2, true⟩], []⟩ = some
      ⟨.numA 10, some 10, none, some 0, [⟨10, 2, 0, 2, false⟩], [3]⟩ := by
    simp [resetFromSet, stopVP, listModify]
  have h7 : resetFromSet ⟨.numA 10, some 10, none, some 0,
      [⟨10, 2, 0, 2, false⟩], [3]⟩ = some
      ⟨.numA 10, some 10, none, some 0, [⟨10, 2, 0, 2, false⟩], [3]⟩ := by
    simp [resetFromSet, stopVP, listModify]
  exact ⟨h6, h7,
    spec_c3 ⟨.rampA 0, some 10, some (some 3), some 0,
        [⟨10, 2, 0, 2, true⟩], []⟩
      ⟨.numA 10, some 10, none, some 0, [⟨10, 2, 0, 2, false⟩], [3]⟩
      ⟨.numA 10, some 10, none, some 0, [⟨10, 2, 0, 2, false⟩], [3]⟩
      0 ⟨10, 2, 0, 2, true⟩ 10 3 rfl rfl rfl rfl rfl h6 h7⟩
